import Mathlib

/-!
# Windows plugin registrant

Verification development for `mobile/windows/flutter/generated_plugin_registrant.cc`.

The file holds one procedure, `RegisterPlugins(flutter::PluginRegistry* registry)`, whose body
is eleven statements of the shape

    XRegisterWithRegistrar(registry->GetRegistrarForPlugin("X"));

The registry and the eleven entry points are external collaborators.  They are taken as a
parameter (`Host`): arbitrary state-changing, possibly failing functions.  The procedure is
embedded in an execution type that threads the host state, stops at the first failure (the
source has no `try`/`catch`) and logs every call made, so that statements about *which calls
happen, in which order, with which arguments* can be stated and proved.
-/

namespace PluginRegistrant

/-! ## Observable calls -/

/-- One call made by the registrant to an external collaborator.  A `getRegistrar` event
records the registry it was made on, the name passed, and the sub-registrar that came back
(`none` when the call failed).  An `entryPoint` event records the identifier of the plugin
function called and the sub-registrar passed to it. -/
inductive Call (Reg R : Type) where
  | getRegistrar (registry : Reg) (name : String) (returned : Option R)
  | entryPoint (ident : String) (registrar : R)
  deriving DecidableEq

/-- The external collaborators.  `registrarFor registry name` is the behaviour of
`registry->GetRegistrarForPlugin(name)`; `plugin ident` is the behaviour of the exported
function called `ident`.  Both may read and change the host state `S` and may fail with an
`E`. -/
structure Host (Reg R E S : Type) where
  registrarFor : Reg → String → S → Except E (R × S)
  plugin : String → R → S → Except E S

/-- A computation of the registrant: from a host state it yields the calls it made and either
a failure or a value with the new host state. -/
def Exec (Reg R E S α : Type) : Type :=
  S → List (Call Reg R) × Except E (α × S)

section Exec

variable {Reg R E S : Type} {α β : Type}

/-- Return a value, making no call. -/
def Exec.pure (a : α) : Exec Reg R E S α :=
  fun s => ([], .ok (a, s))

/-- Sequencing: run `m`; when it fails nothing more is run and the failure is the result;
otherwise run `f` on its value in the state it left. -/
def Exec.bind (m : Exec Reg R E S α) (f : α → Exec Reg R E S β) : Exec Reg R E S β :=
  fun s =>
    match m s with
    | (tr, .error e) => (tr, .error e)
    | (tr, .ok (a, s1)) => (tr ++ (f a s1).1, (f a s1).2)

instance : Monad (Exec Reg R E S) where
  pure := Exec.pure
  bind := Exec.bind

/-- The call `registry->GetRegistrarForPlugin(name)`. -/
def GetRegistrarForPlugin (h : Host Reg R E S) (registry : Reg) (name : String) :
    Exec Reg R E S R :=
  fun s =>
    match h.registrarFor registry name s with
    | .error e => ([Call.getRegistrar registry name none], .error e)
    | .ok (r, s1) => ([Call.getRegistrar registry name (some r)], .ok (r, s1))

/-- The call `ident(registrar)` of an exported plugin function. -/
def callEntryPoint (h : Host Reg R E S) (ident : String) (registrar : R) :
    Exec Reg R E S Unit :=
  fun s =>
    match h.plugin ident registrar s with
    | .error e => ([Call.entryPoint ident registrar], .error e)
    | .ok s1 => ([Call.entryPoint ident registrar], .ok ((), s1))

/-! ## The eleven entry points named in the source -/

def ConnectivityPlusWindowsPluginRegisterWithRegistrar (h : Host Reg R E S) (registrar : R) :
    Exec Reg R E S Unit :=
  callEntryPoint h "ConnectivityPlusWindowsPluginRegisterWithRegistrar" registrar

def DesktopWebviewWindowPluginRegisterWithRegistrar (h : Host Reg R E S) (registrar : R) :
    Exec Reg R E S Unit :=
  callEntryPoint h "DesktopWebviewWindowPluginRegisterWithRegistrar" registrar

def DynamicColorPluginCApiRegisterWithRegistrar (h : Host Reg R E S) (registrar : R) :
    Exec Reg R E S Unit :=
  callEntryPoint h "DynamicColorPluginCApiRegisterWithRegistrar" registrar

def FileSelectorWindowsRegisterWithRegistrar (h : Host Reg R E S) (registrar : R) :
    Exec Reg R E S Unit :=
  callEntryPoint h "FileSelectorWindowsRegisterWithRegistrar" registrar

def FlutterUdidPluginCApiRegisterWithRegistrar (h : Host Reg R E S) (registrar : R) :
    Exec Reg R E S Unit :=
  callEntryPoint h "FlutterUdidPluginCApiRegisterWithRegistrar" registrar

def GeolocatorWindowsRegisterWithRegistrar (h : Host Reg R E S) (registrar : R) :
    Exec Reg R E S Unit :=
  callEntryPoint h "GeolocatorWindowsRegisterWithRegistrar" registrar

def IsarFlutterLibsPluginRegisterWithRegistrar (h : Host Reg R E S) (registrar : R) :
    Exec Reg R E S Unit :=
  callEntryPoint h "IsarFlutterLibsPluginRegisterWithRegistrar" registrar

def PermissionHandlerWindowsPluginRegisterWithRegistrar (h : Host Reg R E S) (registrar : R) :
    Exec Reg R E S Unit :=
  callEntryPoint h "PermissionHandlerWindowsPluginRegisterWithRegistrar" registrar

def SharePlusWindowsPluginCApiRegisterWithRegistrar (h : Host Reg R E S) (registrar : R) :
    Exec Reg R E S Unit :=
  callEntryPoint h "SharePlusWindowsPluginCApiRegisterWithRegistrar" registrar

def UrlLauncherWindowsRegisterWithRegistrar (h : Host Reg R E S) (registrar : R) :
    Exec Reg R E S Unit :=
  callEntryPoint h "UrlLauncherWindowsRegisterWithRegistrar" registrar

def WindowToFrontPluginRegisterWithRegistrar (h : Host Reg R E S) (registrar : R) :
    Exec Reg R E S Unit :=
  callEntryPoint h "WindowToFrontPluginRegisterWithRegistrar" registrar

/-! ## The procedure -/

/-- The body of `void RegisterPlugins(flutter::PluginRegistry* registry)`, statement by
statement.  In each statement the argument `registry->GetRegistrarForPlugin(..)` is evaluated
first and its value is passed to the entry point. -/
def RegisterPlugins (h : Host Reg R E S) (registry : Reg) : Exec Reg R E S Unit := do
  ConnectivityPlusWindowsPluginRegisterWithRegistrar h
      (← GetRegistrarForPlugin h registry "ConnectivityPlusWindowsPlugin")
  DesktopWebviewWindowPluginRegisterWithRegistrar h
      (← GetRegistrarForPlugin h registry "DesktopWebviewWindowPlugin")
  DynamicColorPluginCApiRegisterWithRegistrar h
      (← GetRegistrarForPlugin h registry "DynamicColorPluginCApi")
  FileSelectorWindowsRegisterWithRegistrar h
      (← GetRegistrarForPlugin h registry "FileSelectorWindows")
  FlutterUdidPluginCApiRegisterWithRegistrar h
      (← GetRegistrarForPlugin h registry "FlutterUdidPluginCApi")
  GeolocatorWindowsRegisterWithRegistrar h
      (← GetRegistrarForPlugin h registry "GeolocatorWindows")
  IsarFlutterLibsPluginRegisterWithRegistrar h
      (← GetRegistrarForPlugin h registry "IsarFlutterLibsPlugin")
  PermissionHandlerWindowsPluginRegisterWithRegistrar h
      (← GetRegistrarForPlugin h registry "PermissionHandlerWindowsPlugin")
  SharePlusWindowsPluginCApiRegisterWithRegistrar h
      (← GetRegistrarForPlugin h registry "SharePlusWindowsPluginCApi")
  UrlLauncherWindowsRegisterWithRegistrar h
      (← GetRegistrarForPlugin h registry "UrlLauncherWindows")
  WindowToFrontPluginRegisterWithRegistrar h
      (← GetRegistrarForPlugin h registry "WindowToFrontPlugin")

/-! ## The table form described by the specification -/

/-- A plugin descriptor: the canonical plugin name and the identifier of its registration
entry point. -/
structure PluginEntry where
  name : String
  entryPoint : String
  deriving DecidableEq

/-- The plugin list as data: the eleven (name, entry point) pairs in the listed order. -/
def pluginTable : List PluginEntry :=
  [ ⟨"ConnectivityPlusWindowsPlugin", "ConnectivityPlusWindowsPluginRegisterWithRegistrar"⟩,
    ⟨"DesktopWebviewWindowPlugin", "DesktopWebviewWindowPluginRegisterWithRegistrar"⟩,
    ⟨"DynamicColorPluginCApi", "DynamicColorPluginCApiRegisterWithRegistrar"⟩,
    ⟨"FileSelectorWindows", "FileSelectorWindowsRegisterWithRegistrar"⟩,
    ⟨"FlutterUdidPluginCApi", "FlutterUdidPluginCApiRegisterWithRegistrar"⟩,
    ⟨"GeolocatorWindows", "GeolocatorWindowsRegisterWithRegistrar"⟩,
    ⟨"IsarFlutterLibsPlugin", "IsarFlutterLibsPluginRegisterWithRegistrar"⟩,
    ⟨"PermissionHandlerWindowsPlugin", "PermissionHandlerWindowsPluginRegisterWithRegistrar"⟩,
    ⟨"SharePlusWindowsPluginCApi", "SharePlusWindowsPluginCApiRegisterWithRegistrar"⟩,
    ⟨"UrlLauncherWindows", "UrlLauncherWindowsRegisterWithRegistrar"⟩,
    ⟨"WindowToFrontPlugin", "WindowToFrontPluginRegisterWithRegistrar"⟩ ]

/-- One table step: obtain the sub-registrar by name, then invoke the entry point with it. -/
def registerOne (h : Host Reg R E S) (registry : Reg) (e : PluginEntry) :
    Exec Reg R E S Unit := do
  callEntryPoint h e.entryPoint (← GetRegistrarForPlugin h registry e.name)

/-- The specification's data-driven form: iterate once, in order, over a list of
(name, entry point) pairs. -/
def RegisterPluginsFromTable (h : Host Reg R E S) (registry : Reg) :
    List PluginEntry → Exec Reg R E S Unit
  | [] => pure ()
  | e :: es => do
      registerOne h registry e
      RegisterPluginsFromTable h registry es

/-! ## Vocabulary for statements about a run -/

/-- The eleven plugin names, in the listed order. -/
def pluginNames : List String :=
  [ "ConnectivityPlusWindowsPlugin", "DesktopWebviewWindowPlugin", "DynamicColorPluginCApi",
    "FileSelectorWindows", "FlutterUdidPluginCApi", "GeolocatorWindows",
    "IsarFlutterLibsPlugin", "PermissionHandlerWindowsPlugin", "SharePlusWindowsPluginCApi",
    "UrlLauncherWindows", "WindowToFrontPlugin" ]

/-- The names passed to `GetRegistrarForPlugin`, in call order. -/
def requestedNames : List (Call Reg R) → List String
  | [] => []
  | Call.getRegistrar _ name _ :: cs => name :: requestedNames cs
  | Call.entryPoint _ _ :: cs => requestedNames cs

/-- The identifiers of the entry points called, in call order. -/
def calledEntryPoints : List (Call Reg R) → List String
  | [] => []
  | Call.getRegistrar _ _ _ :: cs => calledEntryPoints cs
  | Call.entryPoint ident _ :: cs => ident :: calledEntryPoints cs

/-- The names one given registry was asked for, in call order. -/
def namesRequestedFrom [DecidableEq Reg] (registry : Reg) : List (Call Reg R) → List String
  | [] => []
  | Call.getRegistrar g name _ :: cs =>
      if g = registry then name :: namesRequestedFrom registry cs
      else namesRequestedFrom registry cs
  | Call.entryPoint _ _ :: cs => namesRequestedFrom registry cs

/-- How many `GetRegistrarForPlugin` calls returned the sub-registrar `r`. -/
def timesReturned [DecidableEq R] (r : R) : List (Call Reg R) → Nat
  | [] => 0
  | Call.getRegistrar _ _ ret :: cs =>
      if ret = some r then timesReturned r cs + 1 else timesReturned r cs
  | Call.entryPoint _ _ :: cs => timesReturned r cs

/-- How many entry-point calls were passed the sub-registrar `r`. -/
def timesPassed [DecidableEq R] (r : R) : List (Call Reg R) → Nat
  | [] => 0
  | Call.getRegistrar _ _ _ :: cs => timesPassed r cs
  | Call.entryPoint _ r1 :: cs =>
      if r1 = r then timesPassed r cs + 1 else timesPassed r cs

/-- The calls of a run that completes the registrations of `es`, the registry having
returned the sub-registrars `rs`: for each entry a `GetRegistrarForPlugin` call followed by
the entry-point call that receives what it returned. -/
def callsOf (registry : Reg) : List PluginEntry → List R → List (Call Reg R)
  | e :: es, r :: rs =>
      Call.getRegistrar registry e.name (some r) :: Call.entryPoint e.entryPoint r ::
        callsOf registry es rs
  | _, _ => []

/-- The host-level meaning of "the registrations of `es` all succeed from state `s`": the
sub-registrars returned, in order, and the state reached; `none` when some call fails. -/
def completed (h : Host Reg R E S) (registry : Reg) : List PluginEntry → S → Option (List R × S)
  | [], s => some ([], s)
  | e :: es, s =>
      match h.registrarFor registry e.name s with
      | .error _ => none
      | .ok (r, s1) =>
        match h.plugin e.entryPoint r s1 with
        | .error _ => none
        | .ok s2 =>
          match completed h registry es s2 with
          | none => none
          | some (rs, s3) => some (r :: rs, s3)

/-- The host-level meaning of "the registration of `e` fails in state `s`": the failure and
the calls made up to it; `none` when both calls succeed.  Either the registry call fails, or it
returns and the entry point then fails. -/
def failureAt (h : Host Reg R E S) (registry : Reg) (e : PluginEntry) (s : S) :
    Option (E × List (Call Reg R)) :=
  match h.registrarFor registry e.name s with
  | .error x => some (x, [Call.getRegistrar registry e.name none])
  | .ok (r, s1) =>
    match h.plugin e.entryPoint r s1 with
    | .error x =>
      some (x, [Call.getRegistrar registry e.name (some r), Call.entryPoint e.entryPoint r])
    | .ok _ => none

/-- The effect on the host state of one registration step (the registry call followed by the
entry-point call), without the call log. -/
def registrationStep (h : Host Reg R E S) (registry : Reg) (e : PluginEntry) (s : S) :
    Except E S :=
  match h.registrarFor registry e.name s with
  | .error x => .error x
  | .ok (r, s1) => h.plugin e.entryPoint r s1

/-- Run registration steps in the order given by a list. -/
def runSteps (h : Host Reg R E S) (registry : Reg) : List PluginEntry → S → Except E S
  | [], s => .ok s
  | e :: es, s =>
      match registrationStep h registry e s with
      | .error x => .error x
      | .ok s1 => runSteps h registry es s1

/-- Two calls of `RegisterPlugins` in sequence, on registry `a` and then on registry `b`. -/
def registerTwice (h : Host Reg R E S) (a b : Reg) : Exec Reg R E S Unit := do
  RegisterPlugins h a
  RegisterPlugins h b

/-! ## Concrete hosts -/

/-- A mock host: every registry returns the requested name itself as the sub-registrar, so
different names give different sub-registrars; the state counts the calls received. -/
def mockHost : Host Nat String String Nat where
  registrarFor := fun _ name s => .ok (name, s + 1)
  plugin := fun _ _ s => .ok (s + 1)

/-- A host on which `GetRegistrarForPlugin("GeolocatorWindows")` fails and every other call
succeeds. -/
def failingHost : Host Nat String String Nat where
  registrarFor := fun _ name s =>
    if name = "GeolocatorWindows" then .error "registrar unavailable" else .ok (name, s + 1)
  plugin := fun _ _ s => .ok (s + 1)

/-- A host whose state is a registered flag per plugin name: the sub-registrar returned for a
name is that name, and an entry point sets the flag of the name its sub-registrar is scoped
to. -/
def flagHost : Host Nat String String (String → Bool) where
  registrarFor := fun _ name w => .ok (name, w)
  plugin := fun _ r w => .ok (Function.update w r true)

/-- A host whose registries hand out a fresh sub-registrar on every call: the handle is the
number of calls received so far, whatever the name asked for. -/
def freshHost : Host Nat Nat String Nat where
  registrarFor := fun _ _ s => .ok (s, s + 1)
  plugin := fun _ _ s => .ok (s + 1)

/-- A host whose state records, per plugin name, the rank at which the plugin was registered.
An entry point writes only the entry of the name its sub-registrar is scoped to, and the rank
it writes is the number of the eleven plugins already recorded: it reads the other entries. -/
def seqHost : Host Nat String String (String → Option Nat) where
  registrarFor := fun _ name w => .ok (name, w)
  plugin := fun _ r w =>
    .ok (Function.update w r
      (some ((pluginNames.filter (fun n => (w n).isSome)).length)))

/-- The `seqHost` state in which no plugin is recorded. -/
def nothingRecorded : String → Option Nat :=
  fun _ => none

/-- What a `flagHost` entry point does to its own entry: it marks it registered. -/
def markRegistered : String → Bool → Bool :=
  fun _ _ => true

/-- The `flagHost` state in which no plugin is registered. -/
def nothingRegistered : String → Bool :=
  fun _ => false

end Exec

/-! ## Lemmas on sequencing -/

section Lemmas

variable {Reg R E S : Type} {α β : Type}

theorem registerOne_apply (h : Host Reg R E S) (registry : Reg) (e : PluginEntry) (s : S) :
    registerOne h registry e s =
      match h.registrarFor registry e.name s with
      | .error x => ([Call.getRegistrar registry e.name none], .error x)
      | .ok (r, s1) =>
        match h.plugin e.entryPoint r s1 with
        | .error x =>
          ([Call.getRegistrar registry e.name (some r), Call.entryPoint e.entryPoint r],
            .error x)
        | .ok s2 =>
          ([Call.getRegistrar registry e.name (some r), Call.entryPoint e.entryPoint r],
            .ok ((), s2)) := by
  show Exec.bind _ _ s = _
  unfold Exec.bind GetRegistrarForPlugin
  cases hq : h.registrarFor registry e.name s with
  | error x => rfl
  | ok p =>
    obtain ⟨r, s1⟩ := p
    simp only [callEntryPoint]
    cases hp : h.plugin e.entryPoint r s1 with
    | error x => simp
    | ok s2 => simp

theorem Exec.bind_def (m : Exec Reg R E S α) (f : α → Exec Reg R E S β) :
    (m >>= f) = Exec.bind m f := rfl

theorem Exec.pure_def (a : α) : (Pure.pure a : Exec Reg R E S α) = Exec.pure a := rfl

theorem Exec.bind_assoc {γ : Type} (m : Exec Reg R E S α) (f : α → Exec Reg R E S β)
    (g : β → Exec Reg R E S γ) :
    Exec.bind (Exec.bind m f) g = Exec.bind m (fun a => Exec.bind (f a) g) := by
  funext s
  unfold Exec.bind
  rcases hm : m s with ⟨tr, x | ⟨a, s1⟩⟩
  · rfl
  · simp only []
    rcases hf : f a s1 with ⟨tr2, y | ⟨b, s2⟩⟩
    · rfl
    · simp [List.append_assoc]

theorem Exec.bind_pure_unit (m : Exec Reg R E S Unit) :
    Exec.bind m (fun _ => Exec.pure ()) = m := by
  funext s
  unfold Exec.bind Exec.pure
  rcases hm : m s with ⟨tr, x | ⟨a, s1⟩⟩
  · rfl
  · simp

/-- The hand-unrolled body and the table iteration are the same computation. -/
theorem RegisterPlugins_eq_fromTable (h : Host Reg R E S) (registry : Reg) :
    RegisterPlugins h registry = RegisterPluginsFromTable h registry pluginTable := by
  simp only [RegisterPlugins, RegisterPluginsFromTable, pluginTable, registerOne,
    ConnectivityPlusWindowsPluginRegisterWithRegistrar,
    DesktopWebviewWindowPluginRegisterWithRegistrar,
    DynamicColorPluginCApiRegisterWithRegistrar,
    FileSelectorWindowsRegisterWithRegistrar,
    FlutterUdidPluginCApiRegisterWithRegistrar,
    GeolocatorWindowsRegisterWithRegistrar,
    IsarFlutterLibsPluginRegisterWithRegistrar,
    PermissionHandlerWindowsPluginRegisterWithRegistrar,
    SharePlusWindowsPluginCApiRegisterWithRegistrar,
    UrlLauncherWindowsRegisterWithRegistrar,
    WindowToFrontPluginRegisterWithRegistrar,
    Exec.bind_def, Exec.pure_def, Exec.bind_assoc, Exec.bind_pure_unit]

theorem fromTable_nil (h : Host Reg R E S) (registry : Reg) (s : S) :
    RegisterPluginsFromTable h registry [] s = ([], .ok ((), s)) := rfl

theorem fromTable_cons (h : Host Reg R E S) (registry : Reg) (e : PluginEntry)
    (es : List PluginEntry) (s : S) :
    RegisterPluginsFromTable h registry (e :: es) s =
      match h.registrarFor registry e.name s with
      | .error x => ([Call.getRegistrar registry e.name none], .error x)
      | .ok (r, s1) =>
        match h.plugin e.entryPoint r s1 with
        | .error x =>
          ([Call.getRegistrar registry e.name (some r), Call.entryPoint e.entryPoint r],
            .error x)
        | .ok s2 =>
          (Call.getRegistrar registry e.name (some r) :: Call.entryPoint e.entryPoint r ::
              (RegisterPluginsFromTable h registry es s2).1,
            (RegisterPluginsFromTable h registry es s2).2) := by
  show Exec.bind (registerOne h registry e) _ s = _
  unfold Exec.bind
  rw [registerOne_apply]
  cases hq : h.registrarFor registry e.name s with
  | error x => rfl
  | ok p =>
    obtain ⟨r, s1⟩ := p
    simp only []
    cases hp : h.plugin e.entryPoint r s1 with
    | error x => rfl
    | ok s2 => simp

/-! ## Shape of a run -/

theorem completed_run (h : Host Reg R E S) (registry : Reg) (es : List PluginEntry) :
    ∀ (s : S) (rs : List R) (s' : S), completed h registry es s = some (rs, s') →
      RegisterPluginsFromTable h registry es s = (callsOf registry es rs, .ok ((), s')) ∧
        rs.length = es.length := by
  induction es with
  | nil =>
    intro s rs s' hc
    simp only [completed, Option.some.injEq, Prod.mk.injEq] at hc
    obtain ⟨rfl, rfl⟩ := hc
    exact ⟨rfl, rfl⟩
  | cons e es ih =>
    intro s rs s' hc
    rw [fromTable_cons]
    unfold completed at hc
    cases hq : h.registrarFor registry e.name s with
    | error x => simp [hq] at hc
    | ok p =>
      obtain ⟨r, s1⟩ := p
      simp only [hq] at hc
      cases hp : h.plugin e.entryPoint r s1 with
      | error x => simp [hp] at hc
      | ok s2 =>
        simp only [hp] at hc
        cases hrest : completed h registry es s2 with
        | none => simp [hrest] at hc
        | some q =>
          obtain ⟨rs1, s3⟩ := q
          simp only [hrest, Option.some.injEq, Prod.mk.injEq] at hc
          obtain ⟨rfl, rfl⟩ := hc
          obtain ⟨hrun, hlen⟩ := ih s2 rs1 s3 hrest
          simp [hp, hrun, callsOf, hlen]

theorem run_ok_completed (h : Host Reg R E S) (registry : Reg) (es : List PluginEntry) :
    ∀ (s : S) (u : Unit) (s' : S), (RegisterPluginsFromTable h registry es s).2 = .ok (u, s') →
      ∃ rs, completed h registry es s = some (rs, s') := by
  induction es with
  | nil =>
    intro s u s' hok
    rw [fromTable_nil] at hok
    simp only [Except.ok.injEq, Prod.mk.injEq] at hok
    exact ⟨[], by simp [completed, hok.2]⟩
  | cons e es ih =>
    intro s u s' hok
    rw [fromTable_cons] at hok
    unfold completed
    cases hq : h.registrarFor registry e.name s with
    | error x => simp [hq] at hok
    | ok p =>
      obtain ⟨r, s1⟩ := p
      simp only [hq] at hok
      cases hp : h.plugin e.entryPoint r s1 with
      | error x => simp [hp] at hok
      | ok s2 =>
        simp only [hp] at hok
        obtain ⟨rs1, hrs1⟩ := ih s2 u s' hok
        exact ⟨r :: rs1, by simp [hp, hrs1]⟩

theorem run_fail (h : Host Reg R E S) (registry : Reg) (e : PluginEntry)
    (post : List PluginEntry) (x : E) (tail : List (Call Reg R)) (pre : List PluginEntry) :
    ∀ (s : S) (rs : List R) (sk : S), completed h registry pre s = some (rs, sk) →
      failureAt h registry e sk = some (x, tail) →
      RegisterPluginsFromTable h registry (pre ++ e :: post) s =
        (callsOf registry pre rs ++ tail, .error x) := by
  induction pre with
  | nil =>
    intro s rs sk hc hf
    simp only [completed, Option.some.injEq, Prod.mk.injEq] at hc
    obtain ⟨rfl, rfl⟩ := hc
    rw [List.nil_append, fromTable_cons]
    unfold failureAt at hf
    cases hq : h.registrarFor registry e.name s with
    | error y =>
      simp only [hq, Option.some.injEq, Prod.mk.injEq] at hf
      obtain ⟨rfl, rfl⟩ := hf
      simp [callsOf]
    | ok p =>
      obtain ⟨r, s1⟩ := p
      simp only [hq] at hf
      cases hp : h.plugin e.entryPoint r s1 with
      | error y =>
        simp only [hp, Option.some.injEq, Prod.mk.injEq] at hf
        obtain ⟨rfl, rfl⟩ := hf
        simp [hp, callsOf]
      | ok s2 => simp [hp] at hf
  | cons d pre ih =>
    intro s rs sk hc hf
    rw [List.cons_append, fromTable_cons]
    unfold completed at hc
    cases hq : h.registrarFor registry d.name s with
    | error y => simp [hq] at hc
    | ok p =>
      obtain ⟨r, s1⟩ := p
      simp only [hq] at hc
      cases hp : h.plugin d.entryPoint r s1 with
      | error y => simp [hp] at hc
      | ok s2 =>
        simp only [hp] at hc
        cases hrest : completed h registry pre s2 with
        | none => simp [hrest] at hc
        | some q =>
          obtain ⟨rs1, s3⟩ := q
          simp only [hrest, Option.some.injEq, Prod.mk.injEq] at hc
          obtain ⟨rfl, rfl⟩ := hc
          simp [hp, ih s2 rs1 s3 hrest hf, callsOf]

/-! ## Names and identifiers in a call log -/

theorem requestedNames_append (c d : List (Call Reg R)) :
    requestedNames (c ++ d) = requestedNames c ++ requestedNames d := by
  induction c with
  | nil => rfl
  | cons a c ih => cases a <;> simp [requestedNames, ih]

theorem calledEntryPoints_append (c d : List (Call Reg R)) :
    calledEntryPoints (c ++ d) = calledEntryPoints c ++ calledEntryPoints d := by
  induction c with
  | nil => rfl
  | cons a c ih => cases a <;> simp [calledEntryPoints, ih]

theorem requestedNames_callsOf (registry : Reg) (es : List PluginEntry) :
    ∀ rs : List R, rs.length = es.length →
      requestedNames (callsOf registry es rs) = es.map (fun e => e.name) := by
  induction es with
  | nil => intro rs _; cases rs <;> rfl
  | cons e es ih =>
    intro rs hlen
    cases rs with
    | nil => simp at hlen
    | cons r rs =>
      simp only [List.length_cons, Nat.add_right_cancel_iff] at hlen
      simp [callsOf, requestedNames, ih rs hlen]

theorem calledEntryPoints_callsOf (registry : Reg) (es : List PluginEntry) :
    ∀ rs : List R, rs.length = es.length →
      calledEntryPoints (callsOf registry es rs) = es.map (fun e => e.entryPoint) := by
  induction es with
  | nil => intro rs _; cases rs <;> rfl
  | cons e es ih =>
    intro rs hlen
    cases rs with
    | nil => simp at hlen
    | cons r rs =>
      simp only [List.length_cons, Nat.add_right_cancel_iff] at hlen
      simp [callsOf, calledEntryPoints, ih rs hlen]

theorem length_callsOf (registry : Reg) (es : List PluginEntry) :
    ∀ rs : List R, rs.length = es.length →
      (callsOf registry es rs).length = 2 * es.length := by
  induction es with
  | nil => intro rs _; cases rs <;> rfl
  | cons e es ih =>
    intro rs hlen
    cases rs with
    | nil => simp at hlen
    | cons r rs =>
      simp only [List.length_cons, Nat.add_right_cancel_iff] at hlen
      simp only [callsOf, List.length_cons, ih rs hlen]
      omega

/-- In every run, failed or not, the names requested are an initial segment of the names of
the table. -/
theorem requestedNames_take (h : Host Reg R E S) (registry : Reg) (es : List PluginEntry) :
    ∀ s : S, ∃ k, requestedNames (RegisterPluginsFromTable h registry es s).1 =
      (es.map (fun e => e.name)).take k := by
  induction es with
  | nil => intro s; exact ⟨0, rfl⟩
  | cons e es ih =>
    intro s
    rw [fromTable_cons]
    cases hq : h.registrarFor registry e.name s with
    | error x => exact ⟨1, by simp [requestedNames]⟩
    | ok p =>
      obtain ⟨r, s1⟩ := p
      cases hp : h.plugin e.entryPoint r s1 with
      | error x => exact ⟨1, by simp [hp, requestedNames]⟩
      | ok s2 =>
        obtain ⟨k, hk⟩ := ih s2
        exact ⟨k + 1, by simp [hp, requestedNames, hk]⟩

/-! ## Adjacency of a registry call and the entry-point call consuming it -/

/-- A registry call that returned is immediately followed by the entry-point call of the same
table entry, which receives the value returned. -/
theorem get_followed (h : Host Reg R E S) (registry : Reg) (es : List PluginEntry) :
    ∀ (s : S) (i : Nat) (g : Reg) (n : String) (r : R),
      (RegisterPluginsFromTable h registry es s).1[i]? = some (Call.getRegistrar g n (some r)) →
      ∃ e ∈ es, e.name = n ∧ g = registry ∧
        (RegisterPluginsFromTable h registry es s).1[i + 1]? =
          some (Call.entryPoint e.entryPoint r) := by
  induction es with
  | nil =>
    intro s i g n r hi
    simp [fromTable_nil] at hi
  | cons e es ih =>
    intro s i g n r hi
    rw [fromTable_cons] at hi ⊢
    cases hq : h.registrarFor registry e.name s with
    | error x =>
      simp only [hq] at hi
      rcases i with _ | i <;> simp at hi
    | ok p =>
      obtain ⟨r0, s1⟩ := p
      simp only [hq] at hi ⊢
      cases hp : h.plugin e.entryPoint r0 s1 with
      | error x =>
        simp only [hp] at hi ⊢
        rcases i with _ | _ | i
        · simp only [List.getElem?_cons_zero, Option.some.injEq, Call.getRegistrar.injEq] at hi
          obtain ⟨rfl, rfl, rfl⟩ := hi
          exact ⟨e, List.mem_cons_self _ _, rfl, rfl, by simp⟩
        · simp at hi
        · simp at hi
      | ok s2 =>
        simp only [hp] at hi ⊢
        rcases i with _ | _ | i
        · simp only [List.getElem?_cons_zero, Option.some.injEq, Call.getRegistrar.injEq] at hi
          obtain ⟨rfl, rfl, rfl⟩ := hi
          exact ⟨e, List.mem_cons_self _ _, rfl, rfl, by simp⟩
        · simp at hi
        · simp only [List.getElem?_cons_succ] at hi
          obtain ⟨e1, he1, hn, hg, hnext⟩ := ih s2 i g n r hi
          exact ⟨e1, List.mem_cons_of_mem _ he1, hn, hg, by simpa using hnext⟩

/-- Every entry-point call comes right after the registry call, on the given registry and for
the name of the same table entry, whose returned value it receives. -/
theorem entry_preceded (h : Host Reg R E S) (registry : Reg) (es : List PluginEntry) :
    ∀ (s : S) (j : Nat) (ident : String) (r : R),
      (RegisterPluginsFromTable h registry es s).1[j]? = some (Call.entryPoint ident r) →
      ∃ i, ∃ e ∈ es, j = i + 1 ∧ ident = e.entryPoint ∧
        (RegisterPluginsFromTable h registry es s).1[i]? =
          some (Call.getRegistrar registry e.name (some r)) := by
  induction es with
  | nil =>
    intro s j ident r hj
    simp [fromTable_nil] at hj
  | cons e es ih =>
    intro s j ident r hj
    rw [fromTable_cons] at hj ⊢
    cases hq : h.registrarFor registry e.name s with
    | error x =>
      simp only [hq] at hj
      rcases j with _ | j <;> simp at hj
    | ok p =>
      obtain ⟨r0, s1⟩ := p
      simp only [hq] at hj ⊢
      cases hp : h.plugin e.entryPoint r0 s1 with
      | error x =>
        simp only [hp] at hj ⊢
        rcases j with _ | _ | j
        · simp at hj
        · simp only [List.getElem?_cons_succ, List.getElem?_cons_zero, Option.some.injEq,
            Call.entryPoint.injEq] at hj
          obtain ⟨rfl, rfl⟩ := hj
          exact ⟨0, e, List.mem_cons_self _ _, rfl, rfl, rfl⟩
        · simp at hj
      | ok s2 =>
        simp only [hp] at hj ⊢
        rcases j with _ | _ | j
        · simp at hj
        · simp only [List.getElem?_cons_succ, List.getElem?_cons_zero, Option.some.injEq,
            Call.entryPoint.injEq] at hj
          obtain ⟨rfl, rfl⟩ := hj
          exact ⟨0, e, List.mem_cons_self _ _, rfl, rfl, rfl⟩
        · simp only [List.getElem?_cons_succ] at hj
          obtain ⟨i, e1, he1, hji, hid, hprev⟩ := ih s2 j ident r hj
          exact ⟨i + 2, e1, List.mem_cons_of_mem _ he1, by omega, hid, by simpa using hprev⟩

/-- Each returned sub-registrar is consumed once: a value is passed to entry points as many
times as registry calls returned it. -/
theorem timesPassed_eq_timesReturned [DecidableEq R] (h : Host Reg R E S) (registry : Reg)
    (r : R) (es : List PluginEntry) :
    ∀ s : S, timesPassed r (RegisterPluginsFromTable h registry es s).1 =
      timesReturned r (RegisterPluginsFromTable h registry es s).1 := by
  induction es with
  | nil => intro s; rfl
  | cons e es ih =>
    intro s
    rw [fromTable_cons]
    cases hq : h.registrarFor registry e.name s with
    | error x => simp [timesPassed, timesReturned]
    | ok p =>
      obtain ⟨r0, s1⟩ := p
      cases hp : h.plugin e.entryPoint r0 s1 with
      | error x => simp [hp, timesPassed, timesReturned]
      | ok s2 => simp [hp, timesPassed, timesReturned, ih s2]

theorem mem_callsOf (registry : Reg) (c : Call Reg R) (es : List PluginEntry) :
    ∀ rs : List R, c ∈ callsOf registry es rs ↔
      ∃ p ∈ es.zip rs, c = Call.getRegistrar registry p.1.name (some p.2) ∨
        c = Call.entryPoint p.1.entryPoint p.2 := by
  induction es with
  | nil => intro rs; simp [callsOf]
  | cons e es ih =>
    intro rs
    cases rs with
    | nil => simp [callsOf]
    | cons r rs =>
      simp only [callsOf, List.mem_cons, ih rs, List.zip_cons_cons, exists_eq_or_imp]
      constructor
      · rintro (hc | hc | ⟨p, hp, hc⟩)
        · exact Or.inl (Or.inl hc)
        · exact Or.inl (Or.inr hc)
        · exact Or.inr ⟨p, hp, hc⟩
      · rintro ((hc | hc) | ⟨p, hp, hc⟩)
        · exact Or.inl hc
        · exact Or.inr (Or.inl hc)
        · exact Or.inr (Or.inr ⟨p, hp, hc⟩)

/-! ## Requests seen by one registry -/

theorem namesRequestedFrom_append [DecidableEq Reg] (g : Reg) (c d : List (Call Reg R)) :
    namesRequestedFrom g (c ++ d) = namesRequestedFrom g c ++ namesRequestedFrom g d := by
  induction c with
  | nil => rfl
  | cons a c ih =>
    cases a with
    | getRegistrar g1 n ret =>
      by_cases hg : g1 = g <;> simp [namesRequestedFrom, hg, ih]
    | entryPoint ident r => simp [namesRequestedFrom, ih]

theorem namesRequestedFrom_callsOf_self [DecidableEq Reg] (g : Reg) (es : List PluginEntry) :
    ∀ rs : List R, rs.length = es.length →
      namesRequestedFrom g (callsOf g es rs) = es.map (fun e => e.name) := by
  induction es with
  | nil => intro rs _; cases rs <;> rfl
  | cons e es ih =>
    intro rs hlen
    cases rs with
    | nil => simp at hlen
    | cons r rs =>
      simp only [List.length_cons, Nat.add_right_cancel_iff] at hlen
      simp [callsOf, namesRequestedFrom, ih rs hlen]

theorem namesRequestedFrom_callsOf_other [DecidableEq Reg] (g g1 : Reg) (hg : g1 ≠ g)
    (es : List PluginEntry) :
    ∀ rs : List R, namesRequestedFrom g (callsOf g1 es rs) = [] := by
  induction es with
  | nil => intro rs; cases rs <;> rfl
  | cons e es ih =>
    intro rs
    cases rs with
    | nil => rfl
    | cons r rs => simp [callsOf, namesRequestedFrom, hg, ih rs]

theorem entry_mem_callsOf (registry : Reg) (es : List PluginEntry) (rs : List R)
    (ident : String) (r : R) (hmem : Call.entryPoint ident r ∈ callsOf registry es rs) :
    ∃ n, Call.getRegistrar registry n (some r) ∈ callsOf registry es rs := by
  rw [mem_callsOf] at hmem
  obtain ⟨p, hp, hc | hc⟩ := hmem
  · cases hc
  · rw [Call.entryPoint.injEq] at hc
    refine ⟨p.1.name, ?_⟩
    rw [mem_callsOf]
    exact ⟨p, hp, Or.inl (by rw [hc.2])⟩

/-! ## The state reached, without the call log -/

theorem run_result_eq_runSteps (h : Host Reg R E S) (registry : Reg) (es : List PluginEntry) :
    ∀ s : S, (RegisterPluginsFromTable h registry es s).2 =
      match runSteps h registry es s with
      | .error x => .error x
      | .ok s' => .ok ((), s') := by
  induction es with
  | nil => intro s; rfl
  | cons e es ih =>
    intro s
    rw [fromTable_cons]
    unfold runSteps registrationStep
    cases hq : h.registrarFor registry e.name s with
    | error x => rfl
    | ok p =>
      obtain ⟨r, s1⟩ := p
      cases hp : h.plugin e.entryPoint r s1 with
      | error x => simp [hp]
      | ok s2 => simp [hp, ih s2]

/-- When every step of a list rewrites only its own entry, as a function `f` of that entry,
and the names of the list are distinct, running the list succeeds and the state reached is
known entry by entry. -/
theorem runSteps_closed_form {V : Type} (h : Host Reg R E (String → V)) (registry : Reg)
    (f : String → V → V) (es : List PluginEntry) :
    (∀ e ∈ es, ∀ w0 : String → V, registrationStep h registry e w0 =
      .ok (Function.update w0 e.name (f e.name (w0 e.name)))) →
    (es.map (fun e => e.name)).Nodup →
    ∀ w : String → V, ∃ w' : String → V, runSteps h registry es w = .ok w' ∧
      (∀ n ∈ es.map (fun e => e.name), w' n = f n (w n)) ∧
      (∀ n, n ∉ es.map (fun e => e.name) → w' n = w n) := by
  induction es with
  | nil =>
    intro _ _ w
    exact ⟨w, rfl, by simp, by simp⟩
  | cons e es ih =>
    intro hown hnd w
    rw [List.map_cons, List.nodup_cons] at hnd
    have hstep := hown e (List.mem_cons_self _ _) w
    obtain ⟨w', hrun, hin, hout⟩ :=
      ih (fun d hd => hown d (List.mem_cons_of_mem _ hd)) hnd.2
        (Function.update w e.name (f e.name (w e.name)))
    refine ⟨w', by simp [runSteps, hstep, hrun], ?_, ?_⟩
    · intro n hn
      rw [List.map_cons, List.mem_cons] at hn
      rcases hn with rfl | hn
      · rw [hout e.name hnd.1, Function.update_same]
      · have hne : n ≠ e.name := fun hc => hnd.1 (hc ▸ hn)
        rw [hin n hn, Function.update_noteq hne]
    · intro n hn
      rw [List.map_cons, List.mem_cons, not_or] at hn
      rw [hout n hn.2, Function.update_noteq hn.1]

/-! ## Facts about the fixed table -/

theorem pluginTable_names : pluginTable.map (fun e => e.name) = pluginNames := rfl

theorem pluginTable_entryPoints :
    pluginTable.map (fun e => e.entryPoint) =
      pluginNames.map (fun n => n ++ "RegisterWithRegistrar") := by
  decide

theorem pluginTable_length : pluginTable.length = 11 := rfl

theorem pluginNames_nodup : pluginNames.Nodup := by
  decide

theorem pluginTable_nodup : pluginTable.Nodup := by
  decide

theorem pluginTable_entryPoint_eq :
    ∀ e ∈ pluginTable, e.entryPoint = e.name ++ "RegisterWithRegistrar" := by
  decide

theorem pluginTable_entryPoint_inj :
    ∀ a ∈ pluginTable, ∀ b ∈ pluginTable, a.entryPoint = b.entryPoint → a = b := by
  decide

theorem append_right_cancel (a b t : String) (hab : a ++ t = b ++ t) : a = b := by
  have hd := congrArg String.data hab
  simp only [String.data_append, List.append_left_inj] at hd
  exact String.ext hd

theorem zip_functional {α β : Type} (l : List α) :
    ∀ (rs : List β), l.Nodup → ∀ (a : α) (b b' : β),
      (a, b) ∈ l.zip rs → (a, b') ∈ l.zip rs → b = b' := by
  induction l with
  | nil => intro rs _ a b b' hb; simp at hb
  | cons x l ih =>
    intro rs hnd a b b' hb hb'
    cases rs with
    | nil => simp at hb
    | cons r rs =>
      rw [List.nodup_cons] at hnd
      rw [List.zip_cons_cons, List.mem_cons] at hb hb'
      rcases hb with hb | hb <;> rcases hb' with hb' | hb'
      · rw [Prod.mk.injEq] at hb hb'
        rw [hb.2, hb'.2]
      · rw [Prod.mk.injEq] at hb
        exact absurd (hb.1 ▸ (List.of_mem_zip hb').1) hnd.1
      · rw [Prod.mk.injEq] at hb'
        exact absurd (hb'.1 ▸ (List.of_mem_zip hb).1) hnd.1
      · exact ih rs hnd.2 a b b' hb hb'

theorem exists_mem_zip {α β : Type} (l : List α) :
    ∀ (rs : List β), rs.length = l.length → ∀ a ∈ l, ∃ b, (a, b) ∈ l.zip rs := by
  induction l with
  | nil => intro rs _ a ha; simp at ha
  | cons x l ih =>
    intro rs hlen a ha
    cases rs with
    | nil => simp at hlen
    | cons r rs =>
      simp only [List.length_cons, Nat.add_right_cancel_iff] at hlen
      rw [List.mem_cons] at ha
      rcases ha with rfl | ha
      · exact ⟨r, by simp⟩
      · obtain ⟨b, hb⟩ := ih rs hlen a ha
        exact ⟨b, by simp [hb]⟩

theorem zip_functional_left {α β : Type} (l : List α) :
    ∀ (rs : List β), rs.Nodup → ∀ (a a' : α) (b : β),
      (a, b) ∈ l.zip rs → (a', b) ∈ l.zip rs → a = a' := by
  induction l with
  | nil => intro rs _ a a' b hb; simp at hb
  | cons x l ih =>
    intro rs hnd a a' b hb hb'
    cases rs with
    | nil => simp at hb
    | cons r rs =>
      rw [List.nodup_cons] at hnd
      rw [List.zip_cons_cons, List.mem_cons] at hb hb'
      rcases hb with hb | hb <;> rcases hb' with hb' | hb'
      · rw [Prod.mk.injEq] at hb hb'
        rw [hb.1, hb'.1]
      · rw [Prod.mk.injEq] at hb
        exact absurd (hb.2 ▸ (List.of_mem_zip hb').2) hnd.1
      · rw [Prod.mk.injEq] at hb'
        exact absurd (hb'.2 ▸ (List.of_mem_zip hb).2) hnd.1
      · exact ih rs hnd.2 a a' b hb hb'

/-- When the sub-registrars returned are pairwise distinct, no value appears in the log as
returned for two different names. -/
theorem callsOf_distinct (registry : Reg) (es : List PluginEntry) (rs : List R)
    (hnd : rs.Nodup) (n1 n2 : String) (r : R)
    (h1 : Call.getRegistrar registry n1 (some r) ∈ callsOf registry es rs)
    (h2 : Call.getRegistrar registry n2 (some r) ∈ callsOf registry es rs) : n1 = n2 := by
  rw [mem_callsOf] at h1 h2
  obtain ⟨p, hp, hc | hc⟩ := h1
  · obtain ⟨q, hq, hd | hd⟩ := h2
    · rw [Call.getRegistrar.injEq] at hc hd
      have hp2 : (p.1, r) ∈ es.zip rs := by
        rw [Option.some.inj hc.2.2]
        exact hp
      have hq2 : (q.1, r) ∈ es.zip rs := by
        rw [Option.some.inj hd.2.2]
        exact hq
      rw [hc.2.1, hd.2.1, zip_functional_left es rs hnd p.1 q.1 r hp2 hq2]
    · cases hd
  · cases hc

theorem freshHost_run_distinct (n1 n2 : String) (r : Nat)
    (h1 : Call.getRegistrar 0 n1 (some r) ∈ (RegisterPlugins freshHost 0 0).1)
    (h2 : Call.getRegistrar 0 n2 (some r) ∈ (RegisterPlugins freshHost 0 0).1) : n1 = n2 := by
  have hrun := (completed_run freshHost 0 pluginTable 0
    [0, 2, 4, 6, 8, 10, 12, 14, 16, 18, 20] 22 rfl).1
  rw [RegisterPlugins_eq_fromTable, hrun] at h1 h2
  exact callsOf_distinct 0 pluginTable _ (by decide) n1 n2 r h1 h2

theorem pluginTable_entryPoints_nodup : (pluginTable.map (fun e => e.entryPoint)).Nodup := by
  decide

theorem pluginTable_split (k : Nat) (hk : k < pluginTable.length) :
    pluginTable = pluginTable.take k ++ pluginTable[k] :: pluginTable.drop (k + 1) := by
  rw [← List.drop_eq_getElem_cons hk, List.take_append_drop]

theorem map_take_succ {α β : Type} (g : α → β) (l : List α) (k : Nat) (hk : k < l.length) :
    (l.take k).map g ++ [g l[k]] = (l.map g).take (k + 1) := by
  rw [List.take_succ, List.getElem?_eq_getElem (by simpa using hk), List.map_take]
  simp

theorem failureAt_calls (h : Host Reg R E S) (registry : Reg) (e : PluginEntry) (s : S)
    (x : E) (tail : List (Call Reg R)) (hf : failureAt h registry e s = some (x, tail)) :
    requestedNames tail = [e.name] ∧
      (calledEntryPoints tail = [] ∨ calledEntryPoints tail = [e.entryPoint]) := by
  unfold failureAt at hf
  cases hq : h.registrarFor registry e.name s with
  | error y =>
    simp only [hq, Option.some.injEq, Prod.mk.injEq] at hf
    obtain ⟨-, rfl⟩ := hf
    exact ⟨rfl, Or.inl rfl⟩
  | ok p =>
    obtain ⟨r, s1⟩ := p
    simp only [hq] at hf
    cases hp : h.plugin e.entryPoint r s1 with
    | error y =>
      simp only [hp, Option.some.injEq, Prod.mk.injEq] at hf
      obtain ⟨-, rfl⟩ := hf
      exact ⟨rfl, Or.inr rfl⟩
    | ok s2 => simp [hp] at hf

/-- A run that returns made exactly the calls of eleven completed registrations. -/
theorem ok_shape (h : Host Reg R E S) (registry : Reg) (s s' : S)
    (hok : (RegisterPlugins h registry s).2 = .ok ((), s')) :
    ∃ rs : List R, rs.length = 11 ∧ completed h registry pluginTable s = some (rs, s') ∧
      (RegisterPlugins h registry s).1 = callsOf registry pluginTable rs := by
  rw [RegisterPlugins_eq_fromTable] at hok ⊢
  obtain ⟨rs, hrs⟩ := run_ok_completed h registry pluginTable s () s' hok
  obtain ⟨hrun, hlen⟩ := completed_run h registry pluginTable s rs s' hrs
  exact ⟨rs, by rw [hlen, pluginTable_length], hrs, by rw [hrun]⟩

end Lemmas

/-! ## The claims -/

section Claims

variable {Reg R E S : Type}

/-- C1: a call of `RegisterPlugins` that returns has made exactly eleven
`GetRegistrarForPlugin` calls and exactly eleven entry-point calls (twenty-two calls in all),
every registry call on the registry it was given; each of the eleven names was requested
exactly once and each plugin's `RegisterWithRegistrar` entry point was called exactly once. -/
theorem registerPlugins_each_plugin_once (h : Host Reg R E S) (registry : Reg) (s s' : S)
    (hok : (RegisterPlugins h registry s).2 = .ok ((), s')) :
    (requestedNames (RegisterPlugins h registry s).1).length = 11 ∧
    (calledEntryPoints (RegisterPlugins h registry s).1).length = 11 ∧
    (RegisterPlugins h registry s).1.length = 22 ∧
    (∀ n ∈ pluginNames, (requestedNames (RegisterPlugins h registry s).1).count n = 1) ∧
    (∀ n ∈ pluginNames,
      (calledEntryPoints (RegisterPlugins h registry s).1).count
        (n ++ "RegisterWithRegistrar") = 1) ∧
    (∀ (g : Reg) (n : String) (ret : Option R),
      Call.getRegistrar g n ret ∈ (RegisterPlugins h registry s).1 → g = registry) := by
  obtain ⟨rs, hlen, -, hcalls⟩ := ok_shape h registry s s' hok
  have hlen2 : rs.length = pluginTable.length := hlen
  rw [hcalls, requestedNames_callsOf registry pluginTable rs hlen2,
    calledEntryPoints_callsOf registry pluginTable rs hlen2,
    length_callsOf registry pluginTable rs hlen2]
  refine ⟨rfl, rfl, rfl, ?_, ?_, ?_⟩
  · show ∀ n ∈ pluginNames, pluginNames.count n = 1
    decide
  · show ∀ n ∈ pluginNames,
      (pluginTable.map (fun e => e.entryPoint)).count (n ++ "RegisterWithRegistrar") = 1
    decide
  · intro g n ret hmem
    rw [mem_callsOf] at hmem
    obtain ⟨p, -, hc | hc⟩ := hmem
    · rw [Call.getRegistrar.injEq] at hc
      exact hc.1
    · cases hc

theorem registerPlugins_each_plugin_once_witness :
    (RegisterPlugins mockHost 0 0).2 = .ok ((), 22) ∧
    (requestedNames (RegisterPlugins mockHost 0 0).1).length = 11 ∧
    (calledEntryPoints (RegisterPlugins mockHost 0 0).1).length = 11 ∧
    (RegisterPlugins mockHost 0 0).1.length = 22 ∧
    (∀ n ∈ pluginNames, (requestedNames (RegisterPlugins mockHost 0 0).1).count n = 1) ∧
    (∀ n ∈ pluginNames,
      (calledEntryPoints (RegisterPlugins mockHost 0 0).1).count
        (n ++ "RegisterWithRegistrar") = 1) ∧
    (∀ (g : Nat) (n : String) (ret : Option String),
      Call.getRegistrar g n ret ∈ (RegisterPlugins mockHost 0 0).1 → g = 0) :=
  ⟨rfl, registerPlugins_each_plugin_once mockHost 0 0 22 rfl⟩

/-- C3: in every run of `RegisterPlugins`, on every registry and whether or not the run
fails, every name passed to `GetRegistrarForPlugin` is one of the eleven plugin names. -/
theorem registerPlugins_requests_only_known_names (h : Host Reg R E S) (registry : Reg)
    (s : S) :
    ∀ n ∈ requestedNames (RegisterPlugins h registry s).1, n ∈ pluginNames := by
  intro n hn
  rw [RegisterPlugins_eq_fromTable] at hn
  obtain ⟨k, hk⟩ := requestedNames_take h registry pluginTable s
  rw [hk, pluginTable_names] at hn
  exact List.mem_of_mem_take hn

theorem registerPlugins_requests_only_known_names_witness :
    "GeolocatorWindows" ∈ requestedNames (RegisterPlugins failingHost 0 0).1 ∧
    "GeolocatorWindows" ∈ pluginNames :=
  ⟨by decide,
    registerPlugins_requests_only_known_names failingHost 0 0 "GeolocatorWindows"
      (by decide)⟩

/-- C4: a run of `RegisterPlugins` that returns requested exactly the fixed list of eleven
names in the listed order, so two returning runs, on any two registries of any two hosts,
request the same names in the same order. -/
theorem registerPlugins_fixed_request_order {Reg2 R2 E2 S2 : Type}
    (h1 : Host Reg R E S) (registry1 : Reg) (s1 t1 : S)
    (h2 : Host Reg2 R2 E2 S2) (registry2 : Reg2) (s2 t2 : S2)
    (hok1 : (RegisterPlugins h1 registry1 s1).2 = .ok ((), t1))
    (hok2 : (RegisterPlugins h2 registry2 s2).2 = .ok ((), t2)) :
    requestedNames (RegisterPlugins h1 registry1 s1).1 =
      [ "ConnectivityPlusWindowsPlugin", "DesktopWebviewWindowPlugin",
        "DynamicColorPluginCApi", "FileSelectorWindows", "FlutterUdidPluginCApi",
        "GeolocatorWindows", "IsarFlutterLibsPlugin", "PermissionHandlerWindowsPlugin",
        "SharePlusWindowsPluginCApi", "UrlLauncherWindows", "WindowToFrontPlugin" ] ∧
    requestedNames (RegisterPlugins h1 registry1 s1).1 =
      requestedNames (RegisterPlugins h2 registry2 s2).1 := by
  obtain ⟨rs1, hlen1, -, hcalls1⟩ := ok_shape h1 registry1 s1 t1 hok1
  obtain ⟨rs2, hlen2, -, hcalls2⟩ := ok_shape h2 registry2 s2 t2 hok2
  rw [hcalls1, hcalls2, requestedNames_callsOf registry1 pluginTable rs1 hlen1,
    requestedNames_callsOf registry2 pluginTable rs2 hlen2]
  exact ⟨rfl, rfl⟩

theorem registerPlugins_fixed_request_order_witness :
    (RegisterPlugins mockHost 0 0).2 = .ok ((), 22) ∧
    (RegisterPlugins mockHost 7 100).2 = .ok ((), 122) ∧
    requestedNames (RegisterPlugins mockHost 0 0).1 =
      [ "ConnectivityPlusWindowsPlugin", "DesktopWebviewWindowPlugin",
        "DynamicColorPluginCApi", "FileSelectorWindows", "FlutterUdidPluginCApi",
        "GeolocatorWindows", "IsarFlutterLibsPlugin", "PermissionHandlerWindowsPlugin",
        "SharePlusWindowsPluginCApi", "UrlLauncherWindows", "WindowToFrontPlugin" ] ∧
    requestedNames (RegisterPlugins mockHost 0 0).1 =
      requestedNames (RegisterPlugins mockHost 7 100).1 :=
  ⟨rfl, rfl, registerPlugins_fixed_request_order mockHost 0 0 22 mockHost 7 100 122 rfl rfl⟩

/-- C8: the hand-unrolled body of `RegisterPlugins` is the same computation as one in-order
iteration over the fixed array of eleven (name, entry point) pairs: for every host, registry
and state both yield the same sequence of calls with the same arguments, and the same
outcome. -/
theorem registerPlugins_refines_table (h : Host Reg R E S) (registry : Reg) (s : S) :
    pluginTable.length = 11 ∧
    RegisterPlugins h registry s = RegisterPluginsFromTable h registry pluginTable s := by
  rw [RegisterPlugins_eq_fromTable]
  exact ⟨rfl, rfl⟩

/-- C2: when, in a run of `RegisterPlugins` that returns, the registry returned a different
sub-registrar for each different name (no value was returned for two names), each plugin's
entry point was passed exactly the sub-registrar the registry returned for that plugin's own
name (that value and no other), and never a sub-registrar returned for one of the other
names.  The condition is on what the registry returns in the run, so it covers a registry that
hands out a fresh handle on every call as well as one whose handles are keyed by name. -/
theorem registerPlugins_own_registrar (h : Host Reg R E S) (registry : Reg) (s s' : S)
    (hdistinct : ∀ (n1 n2 : String) (r : R),
      Call.getRegistrar registry n1 (some r) ∈ (RegisterPlugins h registry s).1 →
      Call.getRegistrar registry n2 (some r) ∈ (RegisterPlugins h registry s).1 → n1 = n2)
    (hok : (RegisterPlugins h registry s).2 = .ok ((), s')) :
    ∀ n ∈ pluginNames, ∃ r : R,
      Call.getRegistrar registry n (some r) ∈ (RegisterPlugins h registry s).1 ∧
      Call.entryPoint (n ++ "RegisterWithRegistrar") r ∈ (RegisterPlugins h registry s).1 ∧
      (∀ r1 : R, Call.entryPoint (n ++ "RegisterWithRegistrar") r1 ∈
        (RegisterPlugins h registry s).1 → r1 = r) ∧
      (∀ (m : String) (r1 : R), m ≠ n →
        Call.getRegistrar registry m (some r1) ∈ (RegisterPlugins h registry s).1 →
        Call.entryPoint (n ++ "RegisterWithRegistrar") r1 ∉
          (RegisterPlugins h registry s).1) := by
  obtain ⟨rs, hlen, -, hcalls⟩ := ok_shape h registry s s' hok
  rw [hcalls] at hdistinct
  intro n hn
  rw [← pluginTable_names, List.mem_map] at hn
  obtain ⟨e, he, rfl⟩ := hn
  obtain ⟨r, hr⟩ := exists_mem_zip pluginTable rs hlen e he
  have hid := pluginTable_entryPoint_eq e he
  have hget : Call.getRegistrar registry e.name (some r) ∈ callsOf registry pluginTable rs := by
    rw [mem_callsOf]
    exact ⟨(e, r), hr, Or.inl rfl⟩
  have huniq : ∀ r1 : R, Call.entryPoint (e.name ++ "RegisterWithRegistrar") r1 ∈
      callsOf registry pluginTable rs → r1 = r := by
    intro r1 hr1
    rw [mem_callsOf] at hr1
    obtain ⟨p, hp, hc | hc⟩ := hr1
    · cases hc
    · rw [Call.entryPoint.injEq, ← hid] at hc
      have hpe : e = p.1 :=
        pluginTable_entryPoint_inj e he p.1 (List.of_mem_zip hp).1 hc.1
      have hp2 : (e, r1) ∈ pluginTable.zip rs := by
        rw [hpe, hc.2]
        exact hp
      exact zip_functional pluginTable rs pluginTable_nodup e r1 r hp2 hr
  rw [hcalls]
  refine ⟨r, hget, ?_, huniq, ?_⟩
  · rw [mem_callsOf]
    exact ⟨(e, r), hr, Or.inr (by rw [hid])⟩
  · intro m r1 hm hgetm hentry
    have hr1 := huniq r1 hentry
    subst hr1
    exact hm (hdistinct m e.name r1 hgetm hget)

theorem registerPlugins_own_registrar_witness :
    (∀ (n1 n2 : String) (r : Nat),
      Call.getRegistrar 0 n1 (some r) ∈ (RegisterPlugins freshHost 0 0).1 →
      Call.getRegistrar 0 n2 (some r) ∈ (RegisterPlugins freshHost 0 0).1 → n1 = n2) ∧
    (RegisterPlugins freshHost 0 0).2 = .ok ((), 22) ∧
    ∀ n ∈ pluginNames, ∃ r : Nat,
      Call.getRegistrar 0 n (some r) ∈ (RegisterPlugins freshHost 0 0).1 ∧
      Call.entryPoint (n ++ "RegisterWithRegistrar") r ∈ (RegisterPlugins freshHost 0 0).1 ∧
      (∀ r1 : Nat, Call.entryPoint (n ++ "RegisterWithRegistrar") r1 ∈
        (RegisterPlugins freshHost 0 0).1 → r1 = r) ∧
      (∀ (m : String) (r1 : Nat), m ≠ n →
        Call.getRegistrar 0 m (some r1) ∈ (RegisterPlugins freshHost 0 0).1 →
        Call.entryPoint (n ++ "RegisterWithRegistrar") r1 ∉
          (RegisterPlugins freshHost 0 0).1) :=
  ⟨freshHost_run_distinct, rfl,
    registerPlugins_own_registrar freshHost 0 0 22 freshHost_run_distinct rfl⟩

/-- C7: in the call sequence of any run of `RegisterPlugins`, every `GetRegistrarForPlugin`
call that returns is immediately followed, with no call in between, by the entry-point call
of the same plugin receiving the value returned; every entry-point call receives the value
returned by the call just before it, so a returned sub-registrar is used at that one position
only; every value is passed to entry points exactly as many times as it was returned; and in a
run that returns every `GetRegistrarForPlugin` call returned and is so followed. -/
theorem registerPlugins_registrar_used_immediately [DecidableEq R] (h : Host Reg R E S)
    (registry : Reg) (s : S) :
    (∀ (i : Nat) (g : Reg) (n : String) (r : R),
      (RegisterPlugins h registry s).1[i]? = some (Call.getRegistrar g n (some r)) →
      (RegisterPlugins h registry s).1[i + 1]? =
        some (Call.entryPoint (n ++ "RegisterWithRegistrar") r)) ∧
    (∀ (j : Nat) (ident : String) (r : R),
      (RegisterPlugins h registry s).1[j]? = some (Call.entryPoint ident r) →
      ∃ (i : Nat) (n : String), j = i + 1 ∧
        (RegisterPlugins h registry s).1[i]? = some (Call.getRegistrar registry n (some r))) ∧
    (∀ r : R, timesPassed r (RegisterPlugins h registry s).1 =
      timesReturned r (RegisterPlugins h registry s).1) ∧
    (∀ s' : S, (RegisterPlugins h registry s).2 = .ok ((), s') →
      ∀ (i : Nat) (g : Reg) (n : String) (ret : Option R),
        (RegisterPlugins h registry s).1[i]? = some (Call.getRegistrar g n ret) →
        ∃ r : R, ret = some r ∧
          (RegisterPlugins h registry s).1[i + 1]? =
            some (Call.entryPoint (n ++ "RegisterWithRegistrar") r)) := by
  have hfollow : ∀ (i : Nat) (g : Reg) (n : String) (r : R),
      (RegisterPlugins h registry s).1[i]? = some (Call.getRegistrar g n (some r)) →
      (RegisterPlugins h registry s).1[i + 1]? =
        some (Call.entryPoint (n ++ "RegisterWithRegistrar") r) := by
    rw [RegisterPlugins_eq_fromTable]
    intro i g n r hi
    obtain ⟨e, he, hn, -, hnext⟩ := get_followed h registry pluginTable s i g n r hi
    rw [hnext, pluginTable_entryPoint_eq e he, hn]
  refine ⟨hfollow, ?_, ?_, ?_⟩
  · rw [RegisterPlugins_eq_fromTable]
    intro j ident r hj
    obtain ⟨i, e, -, hji, -, hprev⟩ := entry_preceded h registry pluginTable s j ident r hj
    exact ⟨i, e.name, hji, hprev⟩
  · rw [RegisterPlugins_eq_fromTable]
    intro r
    exact timesPassed_eq_timesReturned h registry r pluginTable s
  · intro s' hok i g n ret hi
    obtain ⟨rs, -, -, hcalls⟩ := ok_shape h registry s s' hok
    have hmem : Call.getRegistrar g n ret ∈ callsOf registry pluginTable rs := by
      rw [← hcalls]
      exact List.getElem?_mem hi
    rw [mem_callsOf] at hmem
    obtain ⟨p, -, hc | hc⟩ := hmem
    · rw [Call.getRegistrar.injEq] at hc
      refine ⟨p.2, hc.2.2, ?_⟩
      rw [hc.2.2] at hi
      exact hfollow i g n p.2 hi
    · cases hc

theorem registerPlugins_registrar_used_immediately_witness :
    (∀ (i : Nat) (g : Nat) (n : String) (r : String),
      (RegisterPlugins mockHost 0 0).1[i]? = some (Call.getRegistrar g n (some r)) →
      (RegisterPlugins mockHost 0 0).1[i + 1]? =
        some (Call.entryPoint (n ++ "RegisterWithRegistrar") r)) ∧
    (∀ (j : Nat) (ident : String) (r : String),
      (RegisterPlugins mockHost 0 0).1[j]? = some (Call.entryPoint ident r) →
      ∃ (i : Nat) (n : String), j = i + 1 ∧
        (RegisterPlugins mockHost 0 0).1[i]? = some (Call.getRegistrar 0 n (some r))) ∧
    (∀ r : String, timesPassed r (RegisterPlugins mockHost 0 0).1 =
      timesReturned r (RegisterPlugins mockHost 0 0).1) ∧
    (∀ s' : Nat, (RegisterPlugins mockHost 0 0).2 = .ok ((), s') →
      ∀ (i : Nat) (g : Nat) (n : String) (ret : Option String),
        (RegisterPlugins mockHost 0 0).1[i]? = some (Call.getRegistrar g n ret) →
        ∃ r : String, ret = some r ∧
          (RegisterPlugins mockHost 0 0).1[i + 1]? =
            some (Call.entryPoint (n ++ "RegisterWithRegistrar") r)) :=
  registerPlugins_registrar_used_immediately mockHost 0 0

/-- C10: in a run of `RegisterPlugins` that returns, the eleven names passed to
`GetRegistrarForPlugin` are pairwise distinct, the identifiers of the entry points called are,
position by position, the names followed by "RegisterWithRegistrar", and an entry-point call
that follows the request of a name has that name's identifier and not the identifier of any
other requested name. -/
theorem registerPlugins_names_match_entry_points (h : Host Reg R E S) (registry : Reg)
    (s s' : S) (hok : (RegisterPlugins h registry s).2 = .ok ((), s')) :
    (requestedNames (RegisterPlugins h registry s).1).length = 11 ∧
    (requestedNames (RegisterPlugins h registry s).1).Nodup ∧
    calledEntryPoints (RegisterPlugins h registry s).1 =
      (requestedNames (RegisterPlugins h registry s).1).map
        (fun n => n ++ "RegisterWithRegistrar") ∧
    (∀ (i : Nat) (g : Reg) (n : String) (ret : Option R) (ident : String) (r : R),
      (RegisterPlugins h registry s).1[i]? = some (Call.getRegistrar g n ret) →
      (RegisterPlugins h registry s).1[i + 1]? = some (Call.entryPoint ident r) →
      ident = n ++ "RegisterWithRegistrar" ∧
      ∀ m ∈ requestedNames (RegisterPlugins h registry s).1, m ≠ n →
        ident ≠ m ++ "RegisterWithRegistrar") := by
  obtain ⟨rs, hlen, -, hcalls⟩ := ok_shape h registry s s' hok
  have hlen2 : rs.length = pluginTable.length := hlen
  have hnames : requestedNames (RegisterPlugins h registry s).1 = pluginNames := by
    rw [hcalls, requestedNames_callsOf registry pluginTable rs hlen2, pluginTable_names]
  have hids : calledEntryPoints (RegisterPlugins h registry s).1 =
      pluginNames.map (fun n => n ++ "RegisterWithRegistrar") := by
    rw [hcalls, calledEntryPoints_callsOf registry pluginTable rs hlen2,
      pluginTable_entryPoints]
  refine ⟨by rw [hnames]; rfl, by rw [hnames]; exact pluginNames_nodup,
    by rw [hids, hnames], ?_⟩
  intro i g n ret ident r hi hnext
  have hident : ident = n ++ "RegisterWithRegistrar" := by
    rw [RegisterPlugins_eq_fromTable] at hi hnext
    obtain ⟨i1, e, he, hji, hid, hprev⟩ :=
      entry_preceded h registry pluginTable s (i + 1) ident r hnext
    have hii : i1 = i := by omega
    rw [hii, hi, Option.some.injEq, Call.getRegistrar.injEq] at hprev
    rw [hid, pluginTable_entryPoint_eq e he, hprev.2.1]
  refine ⟨hident, ?_⟩
  intro m _ hmn hm
  rw [hident] at hm
  exact hmn (append_right_cancel n m "RegisterWithRegistrar" hm).symm

theorem registerPlugins_names_match_entry_points_witness :
    (RegisterPlugins mockHost 0 0).2 = .ok ((), 22) ∧
    (requestedNames (RegisterPlugins mockHost 0 0).1).length = 11 ∧
    (requestedNames (RegisterPlugins mockHost 0 0).1).Nodup ∧
    calledEntryPoints (RegisterPlugins mockHost 0 0).1 =
      (requestedNames (RegisterPlugins mockHost 0 0).1).map
        (fun n => n ++ "RegisterWithRegistrar") ∧
    (∀ (i : Nat) (g : Nat) (n : String) (ret : Option String) (ident : String) (r : String),
      (RegisterPlugins mockHost 0 0).1[i]? = some (Call.getRegistrar g n ret) →
      (RegisterPlugins mockHost 0 0).1[i + 1]? = some (Call.entryPoint ident r) →
      ident = n ++ "RegisterWithRegistrar" ∧
      ∀ m ∈ requestedNames (RegisterPlugins mockHost 0 0).1, m ≠ n →
        ident ≠ m ++ "RegisterWithRegistrar") :=
  ⟨rfl, registerPlugins_names_match_entry_points mockHost 0 0 22 rfl⟩

/-- C9: `RegisterPlugins` catches and retries nothing.  When the registrations of the first
`k` plugins succeed and the next plugin's `GetRegistrarForPlugin` call or entry-point call
fails with `x`, `RegisterPlugins` fails with that same `x`; its calls are exactly the calls of
the `k` completed registrations followed by the calls up to the failing one; each earlier
plugin was requested once and had its entry point called once; no call is made for any later
plugin; and no name is requested twice and no entry point is called twice. -/
theorem registerPlugins_stops_at_first_failure (h : Host Reg R E S) (registry : Reg)
    (s sk : S) (k : Nat) (hk : k < pluginTable.length) (rs : List R) (x : E)
    (tail : List (Call Reg R))
    (hdone : completed h registry (pluginTable.take k) s = some (rs, sk))
    (hfail : failureAt h registry pluginTable[k] sk = some (x, tail)) :
    RegisterPlugins h registry s =
      (callsOf registry (pluginTable.take k) rs ++ tail, .error x) ∧
    requestedNames (RegisterPlugins h registry s).1 = pluginNames.take (k + 1) ∧
    (∀ n ∈ pluginNames.take k,
      (requestedNames (RegisterPlugins h registry s).1).count n = 1 ∧
      (calledEntryPoints (RegisterPlugins h registry s).1).count
        (n ++ "RegisterWithRegistrar") = 1) ∧
    (∀ n ∈ pluginNames.drop (k + 1),
      n ∉ requestedNames (RegisterPlugins h registry s).1 ∧
      n ++ "RegisterWithRegistrar" ∉ calledEntryPoints (RegisterPlugins h registry s).1) ∧
    (requestedNames (RegisterPlugins h registry s).1).Nodup ∧
    (calledEntryPoints (RegisterPlugins h registry s).1).Nodup := by
  have hrun : RegisterPlugins h registry s =
      (callsOf registry (pluginTable.take k) rs ++ tail, .error x) := by
    rw [RegisterPlugins_eq_fromTable]
    exact (congrArg (fun t => RegisterPluginsFromTable h registry t s)
      (pluginTable_split k hk)).trans
      (run_fail h registry pluginTable[k] (pluginTable.drop (k + 1)) x tail
        (pluginTable.take k) s rs sk hdone hfail)
  obtain ⟨-, hlen⟩ := completed_run h registry (pluginTable.take k) s rs sk hdone
  obtain ⟨htn, hte⟩ := failureAt_calls h registry pluginTable[k] sk x tail hfail
  have hnames : requestedNames (RegisterPlugins h registry s).1 = pluginNames.take (k + 1) := by
    rw [hrun]
    show requestedNames (callsOf registry (pluginTable.take k) rs ++ tail) = _
    rw [requestedNames_append, requestedNames_callsOf registry _ rs hlen, htn,
      map_take_succ (fun e => e.name) pluginTable k hk, pluginTable_names]
  have hids : ∃ j, j ≤ k + 1 ∧ k ≤ j ∧ calledEntryPoints (RegisterPlugins h registry s).1 =
      (pluginNames.map (fun n => n ++ "RegisterWithRegistrar")).take j := by
    rw [hrun]
    show ∃ j, j ≤ k + 1 ∧ k ≤ j ∧
      calledEntryPoints (callsOf registry (pluginTable.take k) rs ++ tail) = _
    rw [calledEntryPoints_append, calledEntryPoints_callsOf registry _ rs hlen,
      ← pluginTable_entryPoints]
    rcases hte with hte | hte
    · exact ⟨k, by omega, le_refl k, by rw [hte, List.append_nil, List.map_take]⟩
    · exact ⟨k + 1, le_refl _, by omega, by
        rw [hte, map_take_succ (fun e => e.entryPoint) pluginTable k hk]⟩
  obtain ⟨j, hj1, hj2, hidsj⟩ := hids
  have hnd1 : (pluginNames.take (k + 1)).Nodup :=
    pluginNames_nodup.sublist (List.take_sublist _ _)
  have hnd2 : ((pluginNames.map (fun n => n ++ "RegisterWithRegistrar")).take j).Nodup := by
    rw [← pluginTable_entryPoints]
    exact pluginTable_entryPoints_nodup.sublist (List.take_sublist _ _)
  refine ⟨hrun, hnames, ?_, ?_, by rw [hnames]; exact hnd1, by rw [hidsj]; exact hnd2⟩
  · intro n hn
    rw [hnames, hidsj]
    constructor
    · exact List.count_eq_one_of_mem hnd1
        ((List.take_sublist_take_left pluginNames (Nat.le_succ k)).subset hn)
    · refine List.count_eq_one_of_mem hnd2 ?_
      refine (List.take_sublist_take_left _ hj2).subset ?_
      rw [← List.map_take]
      exact List.mem_map_of_mem _ hn
  · intro n hn
    rw [hnames, hidsj]
    constructor
    · intro hmem
      exact List.disjoint_take_drop pluginNames_nodup (le_refl (k + 1)) hmem hn
    · intro hmem
      have hdrop : n ++ "RegisterWithRegistrar" ∈
          (pluginNames.map (fun n => n ++ "RegisterWithRegistrar")).drop (k + 1) := by
        rw [← List.map_drop]
        exact List.mem_map_of_mem _ hn
      have hnd : (pluginNames.map (fun n => n ++ "RegisterWithRegistrar")).Nodup := by
        rw [← pluginTable_entryPoints]
        exact pluginTable_entryPoints_nodup
      exact List.disjoint_take_drop hnd hj1 hmem hdrop

theorem registerPlugins_stops_at_first_failure_witness :
    completed failingHost 0 (pluginTable.take 5) 0 =
      some (["ConnectivityPlusWindowsPlugin", "DesktopWebviewWindowPlugin",
        "DynamicColorPluginCApi", "FileSelectorWindows", "FlutterUdidPluginCApi"], 10) ∧
    failureAt failingHost 0 (pluginTable.get ⟨5, by decide⟩) 10 =
      some ("registrar unavailable", [Call.getRegistrar 0 "GeolocatorWindows" none]) ∧
    RegisterPlugins failingHost 0 0 =
      (callsOf 0 (pluginTable.take 5)
          ["ConnectivityPlusWindowsPlugin", "DesktopWebviewWindowPlugin",
            "DynamicColorPluginCApi", "FileSelectorWindows", "FlutterUdidPluginCApi"] ++
        [Call.getRegistrar 0 "GeolocatorWindows" none], .error "registrar unavailable") ∧
    requestedNames (RegisterPlugins failingHost 0 0).1 = pluginNames.take (5 + 1) ∧
    (∀ n ∈ pluginNames.take 5,
      (requestedNames (RegisterPlugins failingHost 0 0).1).count n = 1 ∧
      (calledEntryPoints (RegisterPlugins failingHost 0 0).1).count
        (n ++ "RegisterWithRegistrar") = 1) ∧
    (∀ n ∈ pluginNames.drop (5 + 1),
      n ∉ requestedNames (RegisterPlugins failingHost 0 0).1 ∧
      n ++ "RegisterWithRegistrar" ∉ calledEntryPoints (RegisterPlugins failingHost 0 0).1) ∧
    (requestedNames (RegisterPlugins failingHost 0 0).1).Nodup ∧
    (calledEntryPoints (RegisterPlugins failingHost 0 0).1).Nodup :=
  ⟨rfl, rfl,
    registerPlugins_stops_at_first_failure failingHost 0 0 10 5 (by decide)
      ["ConnectivityPlusWindowsPlugin", "DesktopWebviewWindowPlugin",
        "DynamicColorPluginCApi", "FileSelectorWindows", "FlutterUdidPluginCApi"]
      "registrar unavailable" [Call.getRegistrar 0 "GeolocatorWindows" none] rfl rfl⟩

/-- C5: two calls of `RegisterPlugins` in sequence, on registry `a` and then on a different
registry `b`, that return, produce the calls of a single run on `a` followed by the calls of a
single run on `b` (from the state the first run left): each registry is asked for each of the
eleven names exactly once, in the listed order, every sub-registrar passed to an entry point
in the first run was returned by `a` in that run, and every one in the second run was returned
by `b` in that run. -/
theorem registerTwice_independent_runs [DecidableEq Reg] (h : Host Reg R E S) (a b : Reg)
    (s s' : S) (hab : a ≠ b) (hok : (registerTwice h a b s).2 = .ok ((), s')) :
    ∃ s1 : S,
      (RegisterPlugins h a s).2 = .ok ((), s1) ∧
      (RegisterPlugins h b s1).2 = .ok ((), s') ∧
      (registerTwice h a b s).1 = (RegisterPlugins h a s).1 ++ (RegisterPlugins h b s1).1 ∧
      namesRequestedFrom a (registerTwice h a b s).1 = pluginNames ∧
      namesRequestedFrom b (registerTwice h a b s).1 = pluginNames ∧
      (∀ (ident : String) (r : R), Call.entryPoint ident r ∈ (RegisterPlugins h a s).1 →
        ∃ n, Call.getRegistrar a n (some r) ∈ (RegisterPlugins h a s).1) ∧
      (∀ (ident : String) (r : R), Call.entryPoint ident r ∈ (RegisterPlugins h b s1).1 →
        ∃ n, Call.getRegistrar b n (some r) ∈ (RegisterPlugins h b s1).1) := by
  have htwice : registerTwice h a b s =
      Exec.bind (RegisterPlugins h a) (fun _ => RegisterPlugins h b) s := rfl
  rw [htwice] at hok ⊢
  unfold Exec.bind at hok ⊢
  rcases hfirst : RegisterPlugins h a s with ⟨c1, x | ⟨u, s1⟩⟩
  · simp [hfirst] at hok
  · simp only [hfirst] at hok ⊢
    have hok1 : (RegisterPlugins h a s).2 = .ok ((), s1) := by rw [hfirst]
    obtain ⟨rs1, hlen1, -, hcalls1⟩ := ok_shape h a s s1 hok1
    obtain ⟨rs2, hlen2, -, hcalls2⟩ := ok_shape h b s1 s' hok
    have hc1 : c1 = callsOf a pluginTable rs1 := by
      rw [← hcalls1, hfirst]
    refine ⟨s1, rfl, hok, rfl, ?_, ?_, ?_, ?_⟩
    · rw [namesRequestedFrom_append, hc1, hcalls2,
        namesRequestedFrom_callsOf_self a pluginTable rs1 hlen1,
        namesRequestedFrom_callsOf_other a b (Ne.symm hab) pluginTable rs2,
        List.append_nil, pluginTable_names]
    · rw [namesRequestedFrom_append, hc1, hcalls2,
        namesRequestedFrom_callsOf_self b pluginTable rs2 hlen2,
        namesRequestedFrom_callsOf_other b a hab pluginTable rs1,
        List.nil_append, pluginTable_names]
    · intro ident r hmem
      rw [hc1] at hmem ⊢
      exact entry_mem_callsOf a pluginTable rs1 ident r hmem
    · intro ident r hmem
      rw [hcalls2] at hmem ⊢
      exact entry_mem_callsOf b pluginTable rs2 ident r hmem

theorem registerTwice_independent_runs_witness :
    (0 : Nat) ≠ 1 ∧ (registerTwice mockHost 0 1 0).2 = .ok ((), 44) ∧
    ∃ s1 : Nat,
      (RegisterPlugins mockHost 0 0).2 = .ok ((), s1) ∧
      (RegisterPlugins mockHost 1 s1).2 = .ok ((), 44) ∧
      (registerTwice mockHost 0 1 0).1 =
        (RegisterPlugins mockHost 0 0).1 ++ (RegisterPlugins mockHost 1 s1).1 ∧
      namesRequestedFrom 0 (registerTwice mockHost 0 1 0).1 = pluginNames ∧
      namesRequestedFrom 1 (registerTwice mockHost 0 1 0).1 = pluginNames ∧
      (∀ (ident : String) (r : String),
        Call.entryPoint ident r ∈ (RegisterPlugins mockHost 0 0).1 →
        ∃ n, Call.getRegistrar 0 n (some r) ∈ (RegisterPlugins mockHost 0 0).1) ∧
      (∀ (ident : String) (r : String),
        Call.entryPoint ident r ∈ (RegisterPlugins mockHost 1 s1).1 →
        ∃ n, Call.getRegistrar 1 n (some r) ∈ (RegisterPlugins mockHost 1 s1).1) :=
  ⟨by decide, rfl, registerTwice_independent_runs mockHost 0 1 0 44 (by decide) rfl⟩

/-- C6, as worded, fails: on `seqHost` every registration step succeeds, changes only its own
entry of the registry state and marks it registered, and the run starts with nothing
registered, yet the listed order and the reversed order leave different final states (the
listed order records the ranks 0 to 10 along the list, the reversed order 10 down to 0),
because a step may read the entries of the other plugins. -/
theorem registration_order_matters_when_steps_read_others :
    (∀ e ∈ pluginTable, ∀ w : String → Option Nat, ∃ w1 : String → Option Nat,
      registrationStep seqHost 0 e w = .ok w1 ∧ (∀ m, m ≠ e.name → w1 m = w m) ∧
        (w1 e.name).isSome = true) ∧
    (∀ n, (nothingRecorded n).isSome = false) ∧
    pluginTable.reverse.Perm pluginTable ∧
    (RegisterPlugins seqHost 0 nothingRecorded).2.toOption.map
        (fun p => pluginNames.map p.2) =
      some [some 0, some 1, some 2, some 3, some 4, some 5, some 6, some 7, some 8, some 9,
        some 10] ∧
    (runSteps seqHost 0 pluginTable.reverse nothingRecorded).toOption.map
        (fun w1 => pluginNames.map w1) =
      some [some 10, some 9, some 8, some 7, some 6, some 5, some 4, some 3, some 2, some 1,
        some 0] ∧
    (RegisterPlugins seqHost 0 nothingRecorded).2 ≠
      (runSteps seqHost 0 pluginTable.reverse nothingRecorded).map (fun w1 => ((), w1)) := by
  have hlisted : (RegisterPlugins seqHost 0 nothingRecorded).2.toOption.map
      (fun p => pluginNames.map p.2) =
      some [some 0, some 1, some 2, some 3, some 4, some 5, some 6, some 7, some 8, some 9,
        some 10] := by
    decide
  have hreversed : (runSteps seqHost 0 pluginTable.reverse nothingRecorded).toOption.map
      (fun w1 => pluginNames.map w1) =
      some [some 10, some 9, some 8, some 7, some 6, some 5, some 4, some 3, some 2, some 1,
        some 0] := by
    decide
  refine ⟨?_, fun _ => rfl, List.reverse_perm _, hlisted, hreversed, ?_⟩
  · intro e _ w
    refine ⟨_, rfl, ?_, ?_⟩
    · intro m hm
      exact Function.update_noteq hm _ _
    · rw [Function.update_same]
      rfl
  · intro heq
    have hmap := congrArg
      (fun x : Except String (Unit × (String → Option Nat)) =>
        x.toOption.map (fun p => pluginNames.map p.2)) heq
    simp only [hlisted] at hmap
    cases hrun : runSteps seqHost 0 pluginTable.reverse nothingRecorded with
    | error x =>
      rw [hrun] at hmap
      cases hmap
    | ok w1 =>
      rw [hrun] at hmap hreversed
      have hrev : some (pluginNames.map w1) =
          some [some 10, some 9, some 8, some 7, some 6, some 5, some 4, some 3, some 2,
            some 1, some 0] := hreversed
      have hlis : some [some 0, some 1, some 2, some 3, some 4, some 5, some 6, some 7,
          some 8, some 9, some 10] = some (pluginNames.map w1) := hmap
      rw [hrev] at hlis
      exact absurd hlis (by decide)

/-- C6, amended: registration is order-independent when each plugin's registration step
succeeds and changes only that plugin's own entry of the registry state, the new entry being a
function `f` of the old value of that entry alone.  Then running the eleven
(name, entry point) steps in any permutation of the listed order reaches the same final state
as `RegisterPlugins`; in that state each of the eleven entries is the result of its
registration and every other entry is untouched, so that, starting with nothing registered and
registration marking an entry registered, exactly the eleven plugins are registered. -/
theorem registration_order_independent {V : Type} (h : Host Reg R E (String → V))
    (registry : Reg) (f : String → V → V)
    (hown : ∀ e ∈ pluginTable, ∀ w0 : String → V, registrationStep h registry e w0 =
      .ok (Function.update w0 e.name (f e.name (w0 e.name))))
    (order : List PluginEntry) (hperm : order.Perm pluginTable) (w : String → V) :
    ∃ w' : String → V,
      (RegisterPlugins h registry w).2 = .ok ((), w') ∧
      runSteps h registry order w = .ok w' ∧
      (∀ n ∈ pluginNames, w' n = f n (w n)) ∧
      (∀ n, n ∉ pluginNames → w' n = w n) ∧
      (∀ registered : V → Prop, (∀ n ∈ pluginNames, ∀ v, registered (f n v)) →
        (∀ n, ¬ registered (w n)) → ∀ n, registered (w' n) ↔ n ∈ pluginNames) := by
  have hnd : (pluginTable.map (fun e => e.name)).Nodup := by
    rw [pluginTable_names]
    exact pluginNames_nodup
  obtain ⟨w1, hrun1, hin1, hout1⟩ :=
    runSteps_closed_form h registry f pluginTable hown hnd w
  have hnd2 : (order.map (fun e => e.name)).Nodup :=
    ((hperm.map (fun e => e.name)).nodup_iff).2 hnd
  obtain ⟨w2, hrun2, hin2, hout2⟩ :=
    runSteps_closed_form h registry f order
      (fun e he => hown e (hperm.mem_iff.1 he)) hnd2 w
  have hmem : ∀ n, n ∈ order.map (fun e => e.name) ↔ n ∈ pluginNames := by
    intro n
    rw [← pluginTable_names]
    exact (hperm.map (fun e => e.name)).mem_iff
  rw [pluginTable_names] at hin1 hout1
  have hsame : w2 = w1 := by
    funext n
    by_cases hn : n ∈ pluginNames
    · rw [hin2 n ((hmem n).2 hn), hin1 n hn]
    · rw [hout2 n (fun hc => hn ((hmem n).1 hc)), hout1 n hn]
  refine ⟨w1, ?_, by rw [hrun2, hsame], hin1, hout1, ?_⟩
  · rw [RegisterPlugins_eq_fromTable, run_result_eq_runSteps, hrun1]
  · intro registered hreg hinit n
    constructor
    · intro hr
      by_contra hn
      rw [hout1 n hn] at hr
      exact hinit n hr
    · intro hn
      rw [hin1 n hn]
      exact hreg n hn (w n)

theorem registration_order_independent_witness :
    (∀ e ∈ pluginTable, ∀ w0 : String → Bool, registrationStep flagHost 0 e w0 =
      .ok (Function.update w0 e.name (markRegistered e.name (w0 e.name)))) ∧
    pluginTable.reverse.Perm pluginTable ∧
    ∃ w' : String → Bool,
      (RegisterPlugins flagHost 0 nothingRegistered).2 = .ok ((), w') ∧
      runSteps flagHost 0 pluginTable.reverse nothingRegistered = .ok w' ∧
      (∀ n ∈ pluginNames, w' n = markRegistered n (nothingRegistered n)) ∧
      (∀ n, n ∉ pluginNames → w' n = nothingRegistered n) ∧
      (∀ registered : Bool → Prop,
        (∀ n ∈ pluginNames, ∀ v, registered (markRegistered n v)) →
        (∀ n, ¬ registered (nothingRegistered n)) →
        ∀ n, registered (w' n) ↔ n ∈ pluginNames) :=
  ⟨fun _ _ _ => rfl, List.reverse_perm _,
    registration_order_independent flagHost 0 markRegistered (fun _ _ _ => rfl)
      pluginTable.reverse (List.reverse_perm _) nothingRegistered⟩

end Claims

end PluginRegistrant
